import Mathlib

/-!
Verification of the task-scheduling / iterative-service core of DatenQM
(qcfractal).  The Python sources are shallowly embedded:

* `expand_ndimensional_grid`   from `qcfractal/services/service_util.py`
* `TaskManager.done` / `TaskManager.submit_tasks` from the same file
* `FireworksAdapter.submit_tasks` / `FireworksAdapter.acquire_complete`
  from `qcfractal/queue/fireworks_adapter.py`

Python tuples of ints become `List Int`; Python sets and dicts appearing in
the code are iterated in some order, so they are embedded as lists (claims
about them are stated up to set-membership, never about a particular
iteration order of a Python set).  Exceptions become `Except`.
-/

namespace DatenQM

/-- A grid point: a Python tuple of integers. -/
abbrev Pt := List Int

/-- One sweep step of the inner loop body of `expand_ndimensional_grid`,
for the axis `d`, seed `seed` and displacement `disp`.  The state is the
pair `(compute, connections)` accumulated so far; `complete` is the set
argument of the call.  Mirrors the loop body of the Python source line
for line: bound checks against `dimensions[d]` and `0`, then the
duplicate pushes against `compute` and `complete`, then the insertion. -/
def expandStep (dimensions : List Int) (complete : List Pt)
    (st : List Pt × List (Pt × Pt)) (t : Nat × Pt × Int) :
    List Pt × List (Pt × Pt) :=
  let d := t.1
  let seed := t.2.1
  let disp := t.2.2
  let new_dim := seed.getD d 0 + disp
  if new_dim ≥ dimensions.getD d 0 then st
  else if new_dim < 0 then st
  else
    let new := seed.set d new_dim
    if new ∈ st.1 then st
    else if new ∈ complete then st
    else (st.1 ++ [new], st.2 ++ [(seed, new)])

/-- The iteration space of the three nested loops of
`expand_ndimensional_grid`: `for d in range(len(dimensions))`, then
`for seed in seeds`, then `for disp in [-1, 1]`. -/
def expandTriples (dimensions : List Int) (seeds : List Pt) :
    List (Nat × Pt × Int) :=
  (List.range dimensions.length).flatMap fun d =>
    seeds.flatMap fun seed => [(d, seed, (-1 : Int)), (d, seed, (1 : Int))]

/-- The function `expand_ndimensional_grid(dimensions, seeds, complete)`
from `service_util.py`.  `seeds` and `complete` are Python sets; they are
taken here as lists (an iteration order of the set).  Returns the
`connections` list of `(seed, new)` pairs. -/
def expand_ndimensional_grid (dimensions : List Int) (seeds : List Pt)
    (complete : List Pt) : List (Pt × Pt) :=
  ((expandTriples dimensions seeds).foldl
    (expandStep dimensions complete) ([], [])).2

/-- Invariant maintained by the loop of `expand_ndimensional_grid`: the
emitted neighbors are exactly the accumulated `compute` set, `compute`
has no duplicates, and `compute` never meets `complete`. -/
def ExpandInv (complete : List Pt) (st : List Pt × List (Pt × Pt)) : Prop :=
  st.2.map Prod.snd = st.1 ∧ st.1.Nodup ∧ ∀ p ∈ st.1, p ∉ complete

/-- A point lies inside the grid: it has the dimension of the grid and
every coordinate lies within `[0, dimensions[d])`. -/
def inBounds (dimensions : List Int) (p : Pt) : Prop :=
  p.length = dimensions.length ∧
  ∀ d ∈ List.range dimensions.length,
    0 ≤ p.getD d 0 ∧ p.getD d 0 < dimensions.getD d 0

instance (dimensions : List Int) (p : Pt) : Decidable (inBounds dimensions p) :=
  inferInstanceAs (Decidable (_ ∧ _))

/-- Point `n` differs from `o` in exactly one axis `d < |dimensions|`,
by exactly `±1`, and agrees with `o` everywhere else. -/
def stepPair (dimensions : List Int) (o n : Pt) : Prop :=
  n.length = o.length ∧
  ∃ d, d < dimensions.length ∧
    (n.getD d 0 = o.getD d 0 + 1 ∨ n.getD d 0 = o.getD d 0 - 1) ∧
    ∀ j, j ≠ d → n.getD j 0 = o.getD j 0

/-- The set `complete` contains every in-bounds one-step axis-aligned
neighbor of every seed (the hypothesis of the exhausted-grid claim). -/
def completeCoversNeighbors (dimensions : List Int)
    (seeds complete : List Pt) : Prop :=
  ∀ s ∈ seeds, ∀ d ∈ List.range dimensions.length,
    ∀ disp ∈ [(-1 : Int), 1],
      inBounds dimensions (s.set d (s.getD d 0 + disp)) →
        s.set d (s.getD d 0 + disp) ∈ complete

instance (dimensions : List Int) (seeds complete : List Pt) :
    Decidable (completeCoversNeighbors dimensions seeds complete) := by
  unfold completeCoversNeighbors
  infer_instance

/-- One record of the `storage_socket.get_procedures(...)` data payload.
The query projects `status`, `error` and `hash_index`, but `done` only
ever reads the status, so only that field is modelled. -/
structure ProcRecord where
  status : String
  deriving DecidableEq, Repr

/-- One record of the `storage_socket.get_queue()` data payload: the
error branch of `done` reads the nested `error_message` of the `error`
entry when that entry is present. -/
structure QueueRecord where
  error : Option String
  deriving DecidableEq, Repr

/-- The storage socket as `TaskManager.done` sees it: the data payloads
of its two queries. -/
structure Storage where
  get_procedures : List String → List ProcRecord
  get_queue : List QueueRecord

/-- One storage-layer query issued by `done`. -/
inductive StorageCall where
  | getProcedures (ids : List String)
  | getQueue
  deriving DecidableEq, Repr

/-- Outcome of `TaskManager.done`: the returned value or raised
`KeyError` message, the storage queries issued in order, and the lines
printed by the error branch. -/
structure DoneResult where
  result : Except String Bool
  calls : List StorageCall
  printed : List String

/-- The `TaskManager` state: `required_tasks` maps a round-local key to
a task id (a Python dict, embedded as an association list). -/
structure TaskManager where
  required_tasks : List (String × String)
  deriving DecidableEq, Repr

/-- The method `TaskManager.done` from `service_util.py`.  Returns
`true` immediately when `required_tasks` is empty; otherwise queries
`get_procedures` on the required ids, returns `false` on a record-count
mismatch, raises a `KeyError` carrying the fixed message when any
returned status is `ERROR` (after a no-op loop over the query and after
printing the error message of every queue record), and returns `true`
otherwise — the source performs no `WAITING`/`RUNNING` status check. -/
def TaskManager.done (tm : TaskManager) (storage : Storage) : DoneResult :=
  if tm.required_tasks.length = 0 then
    { result := .ok true, calls := [], printed := [] }
  else
    let ids := tm.required_tasks.map Prod.snd
    let task_query := storage.get_procedures ids
    if task_query.length ≠ tm.required_tasks.length then
      { result := .ok false, calls := [.getProcedures ids], printed := [] }
    else if "ERROR" ∈ task_query.map ProcRecord.status then
      let tasks := storage.get_queue
      { result := .error "All tasks did not execute successfully.",
        calls := [.getProcedures ids, .getQueue],
        printed := tasks.filterMap QueueRecord.error }
    else
      { result := .ok true, calls := [.getProcedures ids], printed := [] }

/-- Python exceptions raised by the embedded code. -/
inductive PyError where
  | nameError (nm : String)
  | keyError (msg : String)
  | indexError
  deriving DecidableEq, Repr

/-- The result dict of `procedure_parser.submit_tasks(packet)`: the
`errors` list under `meta` and the `ids` list under `data`. -/
structure SubmitResult where
  meta_errors : List String
  ids : List String
  deriving DecidableEq, Repr

/-- The loop of `TaskManager.submit_tasks` over the task items,
accumulating the local `required_tasks` dict.  On a non-empty error list
the source formats a `KeyError` message that references `errors`, an
unbound name, so evaluating the format call raises `NameError` before
any `KeyError` exists.  Indexing the first element of an empty `ids`
list raises `IndexError`. -/
def submitLoop {α : Type} (parser : α → SubmitResult) :
    List (String × String) → List (String × α) →
      Except PyError (List (String × String))
  | acc, [] => .ok acc
  | acc, (key, packet) :: rest =>
    let r := parser packet
    if r.meta_errors.length ≠ 0 then
      .error (.nameError "errors")
    else
      match r.ids with
      | [] => .error .indexError
      | id0 :: _ => submitLoop parser (acc ++ [(key, id0)]) rest

/-- The method `TaskManager.submit_tasks` from `service_util.py`.  The
packet validation and `get_procedure_parser` are abstracted into
`parser`; the returned manager is the post-state: `self.required_tasks`
is replaced only after the loop finishes, so an exception leaves it
untouched. -/
def TaskManager.submit_tasks {α : Type} (tm : TaskManager)
    (parser : α → SubmitResult) (tasks : List (String × α)) :
    TaskManager × Except PyError Bool :=
  match submitLoop parser [] tasks with
  | .error e => (tm, .error e)
  | .ok req => ({ tm with required_tasks := req }, .ok true)

/-- A one-required-task manager used to settle C1. -/
def tmWaiting : TaskManager := { required_tasks := [("k1", "1")] }

/-- A storage layer reporting that one task with status `WAITING`. -/
def stWaiting : Storage where
  get_procedures := fun _ => [{ status := "WAITING" }]
  get_queue := []

/-- A two-required-task manager used for the C1 witness. -/
def tmPending : TaskManager :=
  { required_tasks := [("k1", "1"), ("k2", "2")] }

/-- A storage layer reporting those two tasks as `WAITING` and
`RUNNING`. -/
def stPending : Storage where
  get_procedures := fun _ => [{ status := "WAITING" }, { status := "RUNNING" }]
  get_queue := []

/-- Message `msg` mentions `sub`: `sub` occurs inside `msg` as a
contiguous substring. -/
def mentions (msg sub : String) : Prop := sub.toList <:+: msg.toList

instance (msg sub : String) : Decidable (mentions msg sub) :=
  inferInstanceAs (Decidable (_ <:+: _))

/-- A one-required-task manager used to settle C2. -/
def tmErred : TaskManager := { required_tasks := [("k", "7")] }

/-- A storage layer reporting that task as `ERROR`, with its error
message available on the queue record. -/
def stErred : Storage where
  get_procedures := fun _ => [{ status := "ERROR" }]
  get_queue := [{ error := some "task 7 exploded" }]

/-- A manager with no required tasks, used to settle C10. -/
def tmPrev : TaskManager := { required_tasks := [] }

/-- A parser whose submission result reports one error, used to settle
C3. -/
def parserRejecting : Unit → SubmitResult :=
  fun _ => { meta_errors := ["malformed input"], ids := [] }

/-- Python dict assignment of `v` under key `k` on an association list:
overwrite the existing entry in place, or append a new one. -/
def dictSet {κ β : Type} [DecidableEq κ] (q : List (κ × β)) (k : κ)
    (v : β) : List (κ × β) :=
  if k ∈ q.map Prod.fst then
    q.map fun kv => if kv.1 = k then (k, v) else kv
  else q ++ [(k, v)]

/-- Association-list lookup (Python dict indexing, as an `Option`). -/
def assocFind {κ β : Type} [DecidableEq κ] :
    List (κ × β) → κ → Option β
  | [], _ => none
  | kv :: rest, k => if kv.1 = k then some kv.2 else assocFind rest k

/-- Python dict `pop`: the removed value together with the remaining
entries, or `none` (a `KeyError`) when the key is absent. -/
def dictPop {κ β : Type} [DecidableEq κ] :
    List (κ × β) → κ → Option (β × List (κ × β))
  | [], _ => none
  | kv :: rest, k =>
    if kv.1 = k then some (kv.2, rest)
    else
      match dictPop rest k with
      | none => none
      | some (v, rest2) => some (v, kv :: rest2)

/-- One task handed to `FireworksAdapter.submit_tasks`: its `id` (the
tag), the `spec` payload forwarded into the backend Firework, and the
`parser`/`hooks` stored in the adapter queue. -/
structure FwTask where
  id : String
  spec : String
  parser : String
  hooks : List String
  deriving DecidableEq, Repr

/-- The Fireworks adapter state: `self.queue`, a dict from the backend
launch id to `(tag, parser, hooks)`. -/
structure FwAdapter where
  queue : List (Nat × String × String × List String)
  deriving DecidableEq, Repr

/-- The loop body of `FireworksAdapter.submit_tasks` for one task: build
the Firework, submit it through `client.add_wf` (abstracted as `add_wf`,
yielding the launch id), store the queue entry under that launch id and
append the tag to `ret`.  The middle component records every task for
which a backend job was submitted. -/
def fwSubmitStep (add_wf : FwTask → Nat)
    (acc : FwAdapter × List FwTask × List String) (task : FwTask) :
    FwAdapter × List FwTask × List String :=
  let tag := task.id
  let launch := add_wf task
  ({ queue := dictSet acc.1.queue launch (tag, task.parser, task.hooks) },
    acc.2.1 ++ [task], acc.2.2 ++ [tag])

/-- The method `FireworksAdapter.submit_tasks` from
`fireworks_adapter.py`: iterates the loop body over every task,
unconditionally. -/
def FwAdapter.submit_tasks (ad : FwAdapter) (add_wf : FwTask → Nat)
    (tasks : List FwTask) : FwAdapter × List FwTask × List String :=
  tasks.foldl (fwSubmitStep add_wf) (ad, [], [])

/-- A tagged value of a Python dict blob. -/
inductive Val where
  | s (x : String)
  | b (x : Bool)
  deriving DecidableEq, Repr

/-- One backend launch document as projected by the `launches.find`
query of `acquire_complete`: its `fw_id`, `state`, and the projected
stored-data fields (`fw_results`, the first task argument, and the
exception stacktrace). -/
structure LaunchDoc where
  fw_id : Nat
  state : String
  fw_results : String
  task_arg0 : List (String × Val)
  exception_stacktrace : String
  deriving DecidableEq, Repr

/-- The blob stored in the returned mapping: `fw_results` for a
`COMPLETED` job, or the augmented error dict for a `FIZZLED` one. -/
inductive ResultBlob where
  | ok (fw_results : String)
  | err (blob : List (String × Val))
  deriving DecidableEq, Repr

/-- The cursor of `acquire_complete`: backend launch documents whose
`fw_id` is among the adapter queue keys and whose state is terminal
(`COMPLETED` or `FIZZLED`). -/
def terminalDocs (ad : FwAdapter) (launches : List LaunchDoc) :
    List LaunchDoc :=
  launches.filter fun d =>
    decide (d.fw_id ∈ ad.queue.map Prod.fst) &&
      (d.state == "COMPLETED" || d.state == "FIZZLED")

/-- The result blob built for one resolved document: for a `FIZZLED` job
the original task spec argument augmented with `error_message` (the
backend stacktrace) and `success := False`. -/
def docBlob (d : LaunchDoc) : ResultBlob :=
  if d.state == "COMPLETED" then .ok d.fw_results
  else
    .err (dictSet (dictSet d.task_arg0 "error_message"
      (.s d.exception_stacktrace)) "success" (.b false))

/-- The loop of `acquire_complete` over the cursor: pop the queue entry
for the `fw_id` of the document (raising `KeyError` when absent) and
assign the blob/parser/hooks triple into `ret` under the popped key. -/
def acquireLoop :
    List LaunchDoc →
      FwAdapter × List (String × ResultBlob × String × List String) →
      Except PyError
        (FwAdapter × List (String × ResultBlob × String × List String))
  | [], acc => .ok acc
  | d :: rest, acc =>
    match dictPop acc.1.queue d.fw_id with
    | none => .error (.keyError "fw_id")
    | some ((key, parser2, hooks), q2) =>
      acquireLoop rest
        ({ queue := q2 }, dictSet acc.2 key (docBlob d, parser2, hooks))

/-- The method `FireworksAdapter.acquire_complete` from
`fireworks_adapter.py`: filter the backend launches down to the terminal
ones matching the queue keys, then run the collection loop starting from
an empty `ret`. -/
def FwAdapter.acquire_complete (ad : FwAdapter)
    (launches : List LaunchDoc) :
    Except PyError
      (FwAdapter × List (String × ResultBlob × String × List String)) :=
  acquireLoop (terminalDocs ad launches) (ad, [])

/-- The returned-mapping entry produced by one resolved document, looked
up against a queue snapshot. -/
def mkAcquiredEntry (q : List (Nat × String × String × List String))
    (d : LaunchDoc) : String × ResultBlob × String × List String :=
  match assocFind q d.fw_id with
  | some (key, parser2, hooks) => (key, docBlob d, parser2, hooks)
  | none => ("", docBlob d, "", [])

/-- The C8 task whose id is already queued. -/
def taskDup : FwTask := { id := "t1", spec := "s", parser := "p", hooks := [] }

/-- The C8 adapter state: launch `1` is already queued under tag
`t1`. -/
def adQueued : FwAdapter := { queue := [(1, ("t1", "p", []))] }

/-- A backend assigning launch id `2` to any submission. -/
def addWfTwo : FwTask → Nat := fun _ => 2

/-- The C9 witness adapter: two queued launches with distinct keys and
tags. -/
def adTwo : FwAdapter :=
  { queue := [(1, ("t1", "p1", [])), (2, ("t2", "p2", []))] }

/-- The C9 witness backend state: launch 1 completed, launch 2 fizzled,
launch 3 completed but unknown to the queue. -/
def launchesTwo : List LaunchDoc :=
  [{ fw_id := 1, state := "COMPLETED", fw_results := "res1",
     task_arg0 := [], exception_stacktrace := "" },
   { fw_id := 2, state := "FIZZLED", fw_results := "",
     task_arg0 := [("function", Val.s "f")],
     exception_stacktrace := "trace" },
   { fw_id := 3, state := "COMPLETED", fw_results := "x",
     task_arg0 := [], exception_stacktrace := "" }]

end DatenQM

open DatenQM

theorem expandStep_inv (dimensions : List Int) (complete : List Pt)
    (st : List Pt × List (Pt × Pt)) (t : Nat × Pt × Int)
    (h : ExpandInv complete st) :
    ExpandInv complete (expandStep dimensions complete st t) := by
  obtain ⟨h1, h2, h3⟩ := h
  unfold expandStep
  dsimp only
  split
  · exact ⟨h1, h2, h3⟩
  split
  · exact ⟨h1, h2, h3⟩
  split
  · exact ⟨h1, h2, h3⟩
  next hnotc =>
  split
  · exact ⟨h1, h2, h3⟩
  next hnotdone =>
  refine ⟨by simp [h1], ?_, ?_⟩
  · simpa [List.nodup_append, h2] using hnotc
  · intro p hp
    rcases List.mem_append.mp hp with hp | hp
    · exact h3 p hp
    · simp only [List.mem_singleton] at hp
      subst hp
      exact hnotdone

theorem expandFold_inv (dimensions : List Int) (complete : List Pt)
    (l : List (Nat × Pt × Int)) (st : List Pt × List (Pt × Pt))
    (h : ExpandInv complete st) :
    ExpandInv complete (l.foldl (expandStep dimensions complete) st) := by
  induction l generalizing st with
  | nil => exact h
  | cons t l ih => exact ih _ (expandStep_inv dimensions complete st t h)

theorem getD_set_self (l : List Int) (i : Nat) (v : Int) (h : i < l.length) :
    (l.set i v).getD i 0 = v := by
  simp [List.getD_eq_getElem?_getD, List.getElem?_set_eq_of_lt, h]

theorem getD_set_ne (l : List Int) (i j : Nat) (v : Int) (h : j ≠ i) :
    (l.set i v).getD j 0 = l.getD j 0 := by
  simp [List.getD_eq_getElem?_getD, List.getElem?_set_ne (Ne.symm h)]

theorem mem_expandTriples {dimensions : List Int} {seeds : List Pt}
    {t : Nat × Pt × Int} (h : t ∈ expandTriples dimensions seeds) :
    t.1 < dimensions.length ∧ t.2.1 ∈ seeds ∧ (t.2.2 = -1 ∨ t.2.2 = 1) := by
  unfold expandTriples at h
  simp only [List.mem_flatMap, List.mem_range, List.mem_cons,
    List.mem_singleton, List.not_mem_nil, or_false] at h
  obtain ⟨d, hd, s, hs, ht⟩ := h
  rcases ht with ht | ht
  · subst ht; exact ⟨hd, hs, Or.inl rfl⟩
  · subst ht; exact ⟨hd, hs, Or.inr rfl⟩

/-- Origin of every emitted connection: each pair in the loop output was
either already in the accumulator or arises from one loop triple whose
displaced coordinate passed both bound checks. -/
theorem expandFold_mem (dimensions : List Int) (complete : List Pt)
    (l : List (Nat × Pt × Int)) (st : List Pt × List (Pt × Pt)) :
    ∀ pr ∈ (l.foldl (expandStep dimensions complete) st).2,
      pr ∈ st.2 ∨ ∃ t ∈ l,
        ¬ t.2.1.getD t.1 0 + t.2.2 ≥ dimensions.getD t.1 0 ∧
        ¬ t.2.1.getD t.1 0 + t.2.2 < 0 ∧
        pr = (t.2.1, t.2.1.set t.1 (t.2.1.getD t.1 0 + t.2.2)) := by
  induction l generalizing st with
  | nil => exact fun pr hpr => Or.inl hpr
  | cons t l ih =>
    intro pr hpr
    rcases ih (expandStep dimensions complete st t) pr hpr with
      hmem | ⟨t2, ht2, h1, h2, h3⟩
    · unfold expandStep at hmem
      dsimp only at hmem
      split at hmem
      next hge => exact Or.inl hmem
      next hge =>
      split at hmem
      next hlt => exact Or.inl hmem
      next hlt =>
      split at hmem
      · exact Or.inl hmem
      split at hmem
      · exact Or.inl hmem
      · rcases List.mem_append.mp hmem with hmem | hmem
        · exact Or.inl hmem
        · simp only [List.mem_singleton] at hmem
          exact Or.inr ⟨t, List.mem_cons_self t l, hge, hlt, hmem⟩
    · exact Or.inr ⟨t2, List.mem_cons_of_mem t ht2, h1, h2, h3⟩

/-- Stepping one in-range coordinate of an in-bounds point stays in
bounds. -/
theorem inBounds_set_step (dimensions : List Int) (seed : Pt) (d : Nat)
    (v : Int) (hs : inBounds dimensions seed) (hd : d < dimensions.length)
    (h0 : 0 ≤ v) (h1 : v < dimensions.getD d 0) :
    inBounds dimensions (seed.set d v) := by
  obtain ⟨hlen, hb⟩ := hs
  refine ⟨by simpa using hlen, ?_⟩
  intro j hj
  rcases eq_or_ne j d with rfl | hne
  · have hdl : j < seed.length := by omega
    rw [getD_set_self seed j v hdl]
    exact ⟨h0, h1⟩
  · rw [getD_set_ne seed d j v hne]
    exact hb j hj

/-- On an in-bounds seed whose admissible neighbors are all in
`complete`, the loop body leaves the empty state unchanged. -/
theorem expandStep_skip (dimensions : List Int) (seeds complete : List Pt)
    (hseeds : ∀ s ∈ seeds, inBounds dimensions s)
    (hcover : completeCoversNeighbors dimensions seeds complete)
    (t : Nat × Pt × Int) (ht : t ∈ expandTriples dimensions seeds) :
    expandStep dimensions complete ([], []) t = ([], []) := by
  obtain ⟨hd, hs, hdisp⟩ := mem_expandTriples ht
  obtain ⟨d, seed, disp⟩ := t
  dsimp only at hd hs hdisp
  unfold expandStep
  dsimp only
  split
  · rfl
  next hge =>
  split
  · rfl
  next hlt =>
  split
  next hmem => exact absurd hmem (List.not_mem_nil _)
  split
  · rfl
  next hnc =>
    have hinb : inBounds dimensions (seed.set d (seed.getD d 0 + disp)) :=
      inBounds_set_step dimensions seed d _ (hseeds seed hs) hd
        (by omega) (by omega)
    have hnew : seed.set d (seed.getD d 0 + disp) ∈ complete := by
      refine hcover seed hs d (List.mem_range.mpr hd) disp ?_ hinb
      rcases hdisp with rfl | rfl <;> simp
    exact absurd hnew hnc

theorem expandFold_skip (dimensions : List Int) (seeds complete : List Pt)
    (hseeds : ∀ s ∈ seeds, inBounds dimensions s)
    (hcover : completeCoversNeighbors dimensions seeds complete)
    (l : List (Nat × Pt × Int))
    (hl : ∀ t ∈ l, t ∈ expandTriples dimensions seeds) :
    l.foldl (expandStep dimensions complete) ([], []) = ([], []) := by
  induction l with
  | nil => rfl
  | cons t l ih =>
    rw [List.foldl_cons,
      expandStep_skip dimensions seeds complete hseeds hcover t
        (hl t (List.mem_cons_self t l))]
    exact ih fun t2 ht2 => hl t2 (List.mem_cons_of_mem t ht2)

/-- C4: `expand_ndimensional_grid((3,3), {(1,1)}, {})` returns exactly
the four pairs `((1,1),(0,1))`, `((1,1),(2,1))`, `((1,1),(1,0))`,
`((1,1),(1,2))`, compared as sets (order unspecified). -/
theorem expand_grid_3x3_center :
    (expand_ndimensional_grid [3, 3] [[1, 1]] []).toFinset =
      ({([1, 1], [0, 1]), ([1, 1], [2, 1]), ([1, 1], [1, 0]),
        ([1, 1], [1, 2])} : Finset (Pt × Pt)) := by
  decide

/-- C5: for any dimensions, seeds and complete set (seed points carrying
the dimension of the grid), the sequence returned by
`expand_ndimensional_grid` never contains the same neighbor point twice
and never contains a neighbor belonging to `complete`, even when a point
is reachable from several seeds. -/
theorem expand_no_duplicate_emission (dimensions : List Int)
    (seeds complete : List Pt)
    (hlen : ∀ s ∈ seeds, s.length = dimensions.length) :
    ((expand_ndimensional_grid dimensions seeds complete).map Prod.snd).Nodup ∧
    ∀ pr ∈ expand_ndimensional_grid dimensions seeds complete,
      pr.2 ∉ complete := by
  have h := expandFold_inv dimensions complete (expandTriples dimensions seeds)
    ([], []) ⟨rfl, List.nodup_nil, by simp⟩
  obtain ⟨h1, h2, h3⟩ := h
  unfold expand_ndimensional_grid
  refine ⟨h1 ▸ h2, ?_⟩
  intro pr hpr
  exact h3 pr.2 (h1 ▸ List.mem_map_of_mem Prod.snd hpr)

/-- Witness for C5 at `dimensions = (3,3)`, `seeds = {(1,1)}`,
`complete = {}`. -/
theorem expand_no_duplicate_emission_witness :
    (∀ s ∈ [[(1 : Int), 1]], s.length = [(3 : Int), 3].length) ∧
    (((expand_ndimensional_grid [3, 3] [[1, 1]] []).map Prod.snd).Nodup ∧
      ∀ pr ∈ expand_ndimensional_grid [3, 3] [[1, 1]] [],
        pr.2 ∉ ([] : List Pt)) :=
  ⟨by decide, expand_no_duplicate_emission [3, 3] [[1, 1]] [] (by decide)⟩

/-- C6: for in-bounds seeds, every returned pair `(origin, neighbor)`
has `origin` a seed, `neighbor` one axis-aligned `±1` step away, and
`neighbor` in bounds on every axis; in particular
`expand_ndimensional_grid((2,), {(0,)}, {})` returns exactly
`[((0,), (1,))]`, the `−1` neighbor being out of bounds. -/
theorem expand_pairs_one_step (dimensions : List Int)
    (seeds complete : List Pt)
    (hseeds : ∀ s ∈ seeds, inBounds dimensions s) :
    (∀ pr ∈ expand_ndimensional_grid dimensions seeds complete,
        pr.1 ∈ seeds ∧ stepPair dimensions pr.1 pr.2 ∧
        inBounds dimensions pr.2) ∧
    expand_ndimensional_grid [2] [[0]] [] = [([0], [1])] := by
  refine ⟨?_, by decide⟩
  intro pr hpr
  unfold expand_ndimensional_grid at hpr
  rcases expandFold_mem dimensions complete (expandTriples dimensions seeds)
      ([], []) pr hpr with h | ⟨t, ht, hge, hlt, heq⟩
  · cases h
  obtain ⟨hd, hs, hdisp⟩ := mem_expandTriples ht
  obtain ⟨d, seed, disp⟩ := t
  dsimp only at hd hs hdisp hge hlt heq
  subst heq
  have hsib := hseeds seed hs
  have hdl : d < seed.length := by
    have := hsib.1
    omega
  refine ⟨hs, ⟨by simp, d, hd, ?_, ?_⟩, ?_⟩
  · rw [getD_set_self seed d _ hdl]
    rcases hdisp with rfl | rfl
    · right; ring
    · left; rfl
  · intro j hj
    exact getD_set_ne seed d j _ hj
  · exact inBounds_set_step dimensions seed d _ hsib hd (by omega) (by omega)

/-- Witness for C6 at `dimensions = (3,3)`, `seeds = {(1,1)}`,
`complete = {}`. -/
theorem expand_pairs_one_step_witness :
    (∀ s ∈ [[(1 : Int), 1]], inBounds [3, 3] s) ∧
    ((∀ pr ∈ expand_ndimensional_grid [3, 3] [[1, 1]] [],
        pr.1 ∈ [[(1 : Int), 1]] ∧ stepPair [3, 3] pr.1 pr.2 ∧
        inBounds [3, 3] pr.2) ∧
      expand_ndimensional_grid [2] [[0]] [] = [([0], [1])]) :=
  ⟨by decide, expand_pairs_one_step [3, 3] [[1, 1]] [] (by decide)⟩

/-- C7 counterexample: for the out-of-bounds seed `(5,0)` on a `2×2`
grid, `complete = {}` does contain every in-bounds one-step neighbor of
every seed (there are none), yet `expand_ndimensional_grid` still emits
the pair `((5,0),(5,1))`: the claim quantified over every seed set is
false. -/
theorem expand_exhausted_counterexample :
    completeCoversNeighbors [2, 2] [[5, 0]] [] ∧
    expand_ndimensional_grid [2, 2] [[5, 0]] [] = [([5, 0], [5, 1])] := by
  exact ⟨by decide, by decide⟩

/-- C7 (amended to in-bounds seeds): if every seed lies inside the grid
and `complete` contains every in-bounds one-step axis-aligned neighbor
of every seed, the expansion returns the empty list. -/
theorem expand_exhausted_yields_nothing (dimensions : List Int)
    (seeds complete : List Pt)
    (hseeds : ∀ s ∈ seeds, inBounds dimensions s)
    (hcover : completeCoversNeighbors dimensions seeds complete) :
    expand_ndimensional_grid dimensions seeds complete = [] := by
  unfold expand_ndimensional_grid
  rw [expandFold_skip dimensions seeds complete hseeds hcover
    (expandTriples dimensions seeds) fun t ht => ht]

/-- Witness for C7 (amended) at `dimensions = (3,)`, `seeds = {(1,)}`,
`complete = {(0,), (2,)}`. -/
theorem expand_exhausted_yields_nothing_witness :
    ((∀ s ∈ [[(1 : Int)]], inBounds [3] s) ∧
      completeCoversNeighbors [3] [[1]] [[0], [2]]) ∧
    expand_ndimensional_grid [3] [[1]] [[0], [2]] = [] :=
  ⟨⟨by decide, by decide⟩,
    expand_exhausted_yields_nothing [3] [[1]] [[0], [2]]
      (by decide) (by decide)⟩

/-- C1 counterexample: one required task whose queried record is present
with status `WAITING`, yet `done()` returns `true` — the source checks
only the record count and the `ERROR` status, never `WAITING` or
`RUNNING`, so the claim as stated is false. -/
theorem done_waiting_counterexample :
    (tmWaiting.done stWaiting).result = Except.ok true ∧
    (stWaiting.get_procedures
        (tmWaiting.required_tasks.map Prod.snd)).map ProcRecord.status
      = ["WAITING"] :=
  ⟨rfl, rfl⟩

/-- C1 (amended): for non-empty `required_tasks`, `done()` returns
`false` exactly when the storage query returns a record count different
from the number of required tasks; whenever the count matches and no
returned status is `ERROR`, it returns `true` — regardless of any
`WAITING` or `RUNNING` statuses. -/
theorem done_no_status_check (tm : TaskManager) (storage : Storage)
    (h : tm.required_tasks ≠ []) :
    ((tm.done storage).result = Except.ok false ↔
      (storage.get_procedures (tm.required_tasks.map Prod.snd)).length ≠
        tm.required_tasks.length) ∧
    (((storage.get_procedures (tm.required_tasks.map Prod.snd)).length =
          tm.required_tasks.length ∧
        "ERROR" ∉ (storage.get_procedures
          (tm.required_tasks.map Prod.snd)).map ProcRecord.status) →
      (tm.done storage).result = Except.ok true) := by
  have h0 : ¬ tm.required_tasks.length = 0 := by
    simpa [List.length_eq_zero] using h
  unfold TaskManager.done
  rw [if_neg h0]
  dsimp only
  split
  next hlen =>
    exact ⟨⟨fun _ => hlen, fun _ => rfl⟩, fun hc => absurd hc.1 hlen⟩
  next hlen =>
    split
    next herr =>
      refine ⟨⟨fun hres => ?_, fun hne => absurd (not_not.mp hlen) hne⟩,
        fun hc => absurd herr hc.2⟩
      simp at hres
    next herr =>
      refine ⟨⟨fun hres => ?_, fun hne => absurd (not_not.mp hlen) hne⟩,
        fun _ => rfl⟩
      simp at hres

/-- Witness for C1 (amended): two required tasks, both records returned
with statuses `WAITING` and `RUNNING`, no `ERROR`. -/
theorem done_no_status_check_witness :
    tmPending.required_tasks ≠ [] ∧
    (((tmPending.done stPending).result = Except.ok false ↔
        (stPending.get_procedures
            (tmPending.required_tasks.map Prod.snd)).length ≠
          tmPending.required_tasks.length) ∧
      (((stPending.get_procedures
            (tmPending.required_tasks.map Prod.snd)).length =
            tmPending.required_tasks.length ∧
          "ERROR" ∉ (stPending.get_procedures
            (tmPending.required_tasks.map Prod.snd)).map ProcRecord.status) →
        (tmPending.done stPending).result = Except.ok true)) :=
  ⟨by simp [tmPending], done_no_status_check tmPending stPending (by simp [tmPending])⟩

/-- C2 counterexample: with one required task whose status is `ERROR`
and whose stored error message is the string named in the statement,
`done()` raises `KeyError` with the fixed message, which mentions
neither the task (id `7`) nor its error message — the raised message
does not carry the aggregated error messages. -/
theorem done_error_message_counterexample :
    (tmErred.done stErred).result =
      Except.error "All tasks did not execute successfully." ∧
    ¬ mentions "All tasks did not execute successfully." "task 7 exploded" ∧
    ¬ mentions "All tasks did not execute successfully." "7" :=
  ⟨rfl, by decide, by decide⟩

/-- C2 (amended): whenever the query returns a full record count for a
non-empty round and some status is `ERROR`, `done()` raises `KeyError`
with the fixed message; the per-task error messages are only printed
(one line per queue record carrying an error), not included in the
raised message. -/
theorem done_error_fixed_message (tm : TaskManager) (storage : Storage)
    (hne : tm.required_tasks ≠ [])
    (hlen : (storage.get_procedures (tm.required_tasks.map Prod.snd)).length =
      tm.required_tasks.length)
    (herr : "ERROR" ∈ (storage.get_procedures
      (tm.required_tasks.map Prod.snd)).map ProcRecord.status) :
    (tm.done storage).result =
      Except.error "All tasks did not execute successfully." ∧
    (tm.done storage).printed =
      storage.get_queue.filterMap QueueRecord.error := by
  have h0 : ¬ tm.required_tasks.length = 0 := by
    simpa [List.length_eq_zero] using hne
  unfold TaskManager.done
  rw [if_neg h0]
  dsimp only
  rw [if_neg (by simpa using hlen), if_pos herr]
  exact ⟨rfl, rfl⟩

/-- Witness for C2 (amended) on the concrete erred round. -/
theorem done_error_fixed_message_witness :
    (tmErred.required_tasks ≠ [] ∧
      (stErred.get_procedures
          (tmErred.required_tasks.map Prod.snd)).length =
        tmErred.required_tasks.length ∧
      "ERROR" ∈ (stErred.get_procedures
        (tmErred.required_tasks.map Prod.snd)).map ProcRecord.status) ∧
    ((tmErred.done stErred).result =
        Except.error "All tasks did not execute successfully." ∧
      (tmErred.done stErred).printed =
        stErred.get_queue.filterMap QueueRecord.error) :=
  ⟨⟨by simp [tmErred], rfl, by simp [tmErred, stErred]⟩,
    done_error_fixed_message tmErred stErred (by simp [tmErred]) rfl
      (by simp [tmErred, stErred])⟩

/-- C10: with empty `required_tasks`, `done()` returns `true` and issues
no storage query at all. -/
theorem done_empty_required (tm : TaskManager) (storage : Storage)
    (h : tm.required_tasks = []) :
    (tm.done storage).result = Except.ok true ∧
    (tm.done storage).calls = [] := by
  unfold TaskManager.done
  rw [if_pos (by simp [h])]
  exact ⟨rfl, rfl⟩

/-- Witness for C10 on the empty manager and the erred storage layer. -/
theorem done_empty_required_witness :
    tmPrev.required_tasks = [] ∧
    ((tmPrev.done stErred).result = Except.ok true ∧
      (tmPrev.done stErred).calls = []) :=
  ⟨rfl, done_empty_required tmPrev stErred rfl⟩

/-- C3 (code bug): when the submission result of a packet reports a
non-empty error list, the source formats a `KeyError` message that
references `errors`, an unbound name, so the call raises `NameError`
instead of a `KeyError` surfacing the collected submission errors.
`required_tasks` is indeed left unchanged, because
`self.required_tasks` is only assigned after the loop. -/
theorem submit_tasks_error_raises_nameError :
    TaskManager.submit_tasks { required_tasks := [("old", "9")] }
        parserRejecting [("k", ())] =
      ({ required_tasks := [("old", "9")] },
        Except.error (PyError.nameError "errors")) :=
  rfl

/-- For the context of C3: on any erroring packet the round never
starts — whatever the manager and task list, if the loop raises then the
returned post-state manager is the original one. -/
theorem submit_tasks_error_keeps_required {α : Type} (tm : TaskManager)
    (parser : α → SubmitResult) (tasks : List (String × α)) (e : PyError)
    (h : (tm.submit_tasks parser tasks).2 = Except.error e) :
    (tm.submit_tasks parser tasks).1 = tm := by
  unfold TaskManager.submit_tasks at h ⊢
  cases hres : submitLoop parser [] tasks with
  | error e2 => rfl
  | ok req => rw [hres] at h; simp at h

theorem fwSubmit_aux (add_wf : FwTask → Nat) (tasks : List FwTask)
    (st : FwAdapter × List FwTask × List String) :
    (tasks.foldl (fwSubmitStep add_wf) st).2.1 = st.2.1 ++ tasks ∧
    (tasks.foldl (fwSubmitStep add_wf) st).2.2 =
      st.2.2 ++ tasks.map FwTask.id := by
  induction tasks generalizing st with
  | nil => simp
  | cons t ts ih =>
    rw [List.foldl_cons]
    obtain ⟨h1, h2⟩ := ih (fwSubmitStep add_wf st t)
    rw [h1, h2]
    unfold fwSubmitStep
    dsimp only
    constructor <;> simp

/-- C8 counterexample: the adapter already holds a queue entry with
round-local key (tag) `t1`, yet `submit_tasks` still submits a backend
job for a task with that very id and stores a second queue entry under
the new launch id — the claim that it never double-submits is false. -/
theorem fw_submit_double_counterexample :
    taskDup.id ∈ adQueued.queue.map (fun kv => kv.2.1) ∧
    (adQueued.submit_tasks addWfTwo [taskDup]).2.1 = [taskDup] ∧
    (adQueued.submit_tasks addWfTwo [taskDup]).1.queue =
      [(1, ("t1", "p", [])), (2, ("t1", "p", []))] := by
  refine ⟨by decide, by decide, by decide⟩

/-- C8 (amended): `FireworksAdapter.submit_tasks` never consults its
queue: it submits one backend job for (exactly) every task of the call,
in order, and returns every tag — a task id already present among the
queued tags is submitted again. -/
theorem fw_submit_unconditional (ad : FwAdapter) (add_wf : FwTask → Nat)
    (tasks : List FwTask) :
    (ad.submit_tasks add_wf tasks).2.1 = tasks ∧
    (ad.submit_tasks add_wf tasks).2.2 = tasks.map FwTask.id := by
  unfold FwAdapter.submit_tasks
  simpa using fwSubmit_aux add_wf tasks (ad, [], [])

theorem assocFind_mem {κ β : Type} [DecidableEq κ] {q : List (κ × β)}
    {k : κ} {v : β} (h : assocFind q k = some v) : (k, v) ∈ q := by
  induction q with
  | nil => simp [assocFind] at h
  | cons kv rest ih =>
    unfold assocFind at h
    split at h
    next heq =>
      obtain rfl : kv.2 = v := Option.some.inj h
      exact List.mem_cons.mpr (Or.inl (by simp [← heq]))
    next hne => exact List.mem_cons_of_mem kv (ih h)

theorem dictSet_of_notMem {κ β : Type} [DecidableEq κ] {q : List (κ × β)}
    {k : κ} (v : β) (h : k ∉ q.map Prod.fst) :
    dictSet q k v = q ++ [(k, v)] := by
  unfold dictSet
  rw [if_neg h]

/-- On a dict with distinct keys, `pop` returns the looked-up value and
filters out the unique entry with that key. -/
theorem dictPop_of_nodup {κ β : Type} [DecidableEq κ]
    {q : List (κ × β)} {k : κ}
    (hq : (q.map Prod.fst).Nodup) (hk : k ∈ q.map Prod.fst) :
    ∃ v, assocFind q k = some v ∧
      dictPop q k = some (v, q.filter fun kv => decide (kv.1 ≠ k)) := by
  induction q with
  | nil => simp at hk
  | cons kv rest ih =>
    rw [List.map_cons, List.nodup_cons] at hq
    obtain ⟨hnotin, hrest⟩ := hq
    by_cases h : kv.1 = k
    · refine ⟨kv.2, ?_, ?_⟩
      · unfold assocFind
        rw [if_pos h]
      · unfold dictPop
        rw [if_pos h]
        have hdrop : ((kv :: rest).filter fun kv2 => decide (kv2.1 ≠ k)) =
            rest := by
          rw [List.filter_cons_of_neg (by simp [h])]
          refine List.filter_eq_self.mpr fun kv2 hkv2 => ?_
          have : kv2.1 ≠ k := fun hc => hnotin (h ▸ hc ▸
            List.mem_map_of_mem Prod.fst hkv2)
          simpa using this
        rw [hdrop]
    · have hk2 : k ∈ rest.map Prod.fst := by
        rcases List.mem_cons.mp hk with hc | hc
        · exact absurd hc.symm h
        · exact hc
      obtain ⟨v, hf, hp⟩ := ih hrest hk2
      refine ⟨v, ?_, ?_⟩
      · unfold assocFind
        rw [if_neg h]
        exact hf
      · unfold dictPop
        rw [if_neg h, hp]
        rw [List.filter_cons_of_pos (by simpa using h)]

theorem assocFind_filter_ne {κ β : Type} [DecidableEq κ]
    (q : List (κ × β)) (k k2 : κ) (h : k2 ≠ k) :
    assocFind (q.filter fun kv => decide (kv.1 ≠ k)) k2 =
      assocFind q k2 := by
  induction q with
  | nil => rfl
  | cons kv rest ih =>
    by_cases hh : kv.1 = k
    · rw [List.filter_cons_of_neg (by simp [hh])]
      rw [ih]
      have : ¬ kv.1 = k2 := fun hc => h (hc ▸ hh ▸ rfl)
      conv_rhs => unfold assocFind
      rw [if_neg this]
    · rw [List.filter_cons_of_pos (by simpa using hh)]
      unfold assocFind
      by_cases h2 : kv.1 = k2
      · rw [if_pos h2, if_pos h2]
      · rw [if_neg h2, if_neg h2]
        exact ih

theorem mem_keys_filter_ne {κ β : Type} [DecidableEq κ]
    {q : List (κ × β)} {k k2 : κ}
    (hk2 : k2 ∈ q.map Prod.fst) (hne : k2 ≠ k) :
    k2 ∈ (q.filter fun kv => decide (kv.1 ≠ k)).map Prod.fst := by
  obtain ⟨kv, hkv, rfl⟩ := List.mem_map.mp hk2
  exact List.mem_map_of_mem Prod.fst
    (List.mem_filter.mpr ⟨hkv, by simpa using hne⟩)

/-- Characterization of the collection loop of `acquire_complete`: with
distinct queue keys, distinct queue tags and distinct cursor `fw_id`
values all present among the keys, the loop succeeds, removes exactly
the cursor entries from the queue, and appends one returned entry per
cursor document, in order. -/
theorem acquireLoop_spec (cursor : List LaunchDoc)
    (q : List (Nat × String × String × List String))
    (r : List (String × ResultBlob × String × List String))
    (hq : (q.map Prod.fst).Nodup)
    (htags : (q.map fun kv => kv.2.1).Nodup)
    (hmem : ∀ d ∈ cursor, d.fw_id ∈ q.map Prod.fst)
    (hcids : (cursor.map LaunchDoc.fw_id).Nodup)
    (hr : ∀ kv ∈ q, kv.2.1 ∉ r.map Prod.fst) :
    acquireLoop cursor ({ queue := q }, r) =
      Except.ok
        ({ queue := q.filter fun kv =>
            decide (kv.1 ∉ cursor.map LaunchDoc.fw_id) },
          r ++ cursor.map (mkAcquiredEntry q)) := by
  induction cursor generalizing q r with
  | nil =>
    have hfq : (q.filter fun kv =>
        decide (kv.1 ∉ ([] : List LaunchDoc).map LaunchDoc.fw_id)) = q :=
      List.filter_eq_self.mpr fun kv _ => by simp
    rw [hfq]
    simp [acquireLoop]
  | cons d cursor ih =>
    obtain ⟨v, hfind, hpop⟩ :=
      dictPop_of_nodup hq (hmem d (List.mem_cons_self d cursor))
    obtain ⟨key, parser2, hooks⟩ := v
    have hpe : (d.fw_id, key, parser2, hooks) ∈ q := assocFind_mem hfind
    rw [List.map_cons, List.nodup_cons] at hcids
    obtain ⟨hdhead, hcids2⟩ := hcids
    have hne : ∀ d2 ∈ cursor, d2.fw_id ≠ d.fw_id := by
      intro d2 hd2 hc
      exact hdhead (hc ▸ List.mem_map_of_mem LaunchDoc.fw_id hd2)
    -- one step of the loop
    unfold acquireLoop
    dsimp only
    rw [hpop]
    dsimp only
    -- the assignment to the fresh key appends
    have hkeyr : key ∉ r.map Prod.fst := hr (d.fw_id, key, parser2, hooks) hpe
    rw [dictSet_of_notMem (docBlob d, parser2, hooks) hkeyr]
    -- apply the induction hypothesis on the popped queue
    have hq2 : (((q.filter fun kv => decide (kv.1 ≠ d.fw_id)).map
        Prod.fst)).Nodup := ((List.filter_sublist q).map Prod.fst).nodup hq
    have htags2 : (((q.filter fun kv => decide (kv.1 ≠ d.fw_id)).map
        fun kv => kv.2.1)).Nodup :=
      ((List.filter_sublist q).map fun kv => kv.2.1).nodup htags
    have hmem2 : ∀ d2 ∈ cursor, d2.fw_id ∈
        (q.filter fun kv => decide (kv.1 ≠ d.fw_id)).map Prod.fst :=
      fun d2 hd2 => mem_keys_filter_ne
        (hmem d2 (List.mem_cons_of_mem d hd2)) (hne d2 hd2)
    have hr2 : ∀ kv ∈ q.filter fun kv => decide (kv.1 ≠ d.fw_id),
        kv.2.1 ∉ (r ++ [(key, docBlob d, parser2, hooks)]).map Prod.fst := by
      intro kv hkv
      have hkvq : kv ∈ q := List.mem_of_mem_filter hkv
      have hkvne : kv.1 ≠ d.fw_id := by
        have := (List.mem_filter.mp hkv).2
        simpa using this
      rw [List.map_append, List.mem_append]
      rintro (hc | hc)
      · exact hr kv hkvq hc
      · simp only [List.map_cons, List.map_nil, List.mem_singleton] at hc
        have : kv = (d.fw_id, key, parser2, hooks) :=
          List.inj_on_of_nodup_map htags hkvq hpe hc
        exact hkvne (by rw [this])
    rw [ih (q.filter fun kv => decide (kv.1 ≠ d.fw_id))
      (r ++ [(key, docBlob d, parser2, hooks)]) hq2 htags2 hmem2 hcids2 hr2]
    -- massage both components into the claimed shape
    have hff : ((q.filter fun kv => decide (kv.1 ≠ d.fw_id)).filter
          fun kv => decide (kv.1 ∉ cursor.map LaunchDoc.fw_id)) =
        q.filter fun kv =>
          decide (kv.1 ∉ (d :: cursor).map LaunchDoc.fw_id) := by
      rw [List.filter_filter]
      refine List.filter_congr fun kv _ => ?_
      by_cases h1 : kv.1 = d.fw_id <;>
        by_cases h2 : kv.1 ∈ cursor.map LaunchDoc.fw_id <;>
          simp [h1, h2]
    have hmk : cursor.map (mkAcquiredEntry
          (q.filter fun kv => decide (kv.1 ≠ d.fw_id))) =
        cursor.map (mkAcquiredEntry q) := by
      refine List.map_congr_left fun d2 hd2 => ?_
      unfold mkAcquiredEntry
      rw [assocFind_filter_ne q d.fw_id d2.fw_id (hne d2 hd2)]
    have hhead : mkAcquiredEntry q d = (key, docBlob d, parser2, hooks) := by
      unfold mkAcquiredEntry
      rw [hfind]
    rw [hff, hmk]
    simp [hhead]

/-- C9: with distinct queue keys, distinct queue tags, and distinct
backend `fw_id` values, `acquire_complete` succeeds; every job observed
in a terminal state is removed from the queue exactly once (the final
queue is the original one minus exactly the resolved keys) and
contributes exactly one entry to the returned mapping, in cursor order;
for a `FIZZLED` job the returned blob is the original task spec argument
augmented with the backend failure message and tagged
`success := false`. -/
theorem fw_acquire_terminal_resolution (ad : FwAdapter)
    (launches : List LaunchDoc)
    (hkeys : (ad.queue.map Prod.fst).Nodup)
    (htags : (ad.queue.map fun kv => kv.2.1).Nodup)
    (hids : (launches.map LaunchDoc.fw_id).Nodup) :
    ∃ ad2 ret, ad.acquire_complete launches = Except.ok (ad2, ret) ∧
      ad2.queue = ad.queue.filter (fun kv =>
        decide (kv.1 ∉ (terminalDocs ad launches).map LaunchDoc.fw_id)) ∧
      (∀ d ∈ terminalDocs ad launches,
        d.fw_id ∈ ad.queue.map Prod.fst ∧
        d.fw_id ∉ ad2.queue.map Prod.fst) ∧
      ret = (terminalDocs ad launches).map (mkAcquiredEntry ad.queue) ∧
      (∀ d ∈ terminalDocs ad launches, d.state = "FIZZLED" →
        ∀ key parser2 hooks,
          assocFind ad.queue d.fw_id = some (key, parser2, hooks) →
          (key, ResultBlob.err (dictSet (dictSet d.task_arg0 "error_message"
              (Val.s d.exception_stacktrace)) "success" (Val.b false)),
            parser2, hooks) ∈ ret) := by
  have hmem : ∀ d ∈ terminalDocs ad launches,
      d.fw_id ∈ ad.queue.map Prod.fst := by
    intro d hd
    have h2 := (List.mem_filter.mp hd).2
    simp only [Bool.and_eq_true, decide_eq_true_eq] at h2
    exact h2.1
  have hcids : ((terminalDocs ad launches).map LaunchDoc.fw_id).Nodup :=
    ((List.filter_sublist launches).map LaunchDoc.fw_id).nodup hids
  have hrun := acquireLoop_spec (terminalDocs ad launches) ad.queue []
    hkeys htags hmem hcids (by simp)
  refine ⟨{ queue := ad.queue.filter fun kv =>
      decide (kv.1 ∉ (terminalDocs ad launches).map LaunchDoc.fw_id) },
    (terminalDocs ad launches).map (mkAcquiredEntry ad.queue),
    ?_, rfl, ?_, rfl, ?_⟩
  · unfold FwAdapter.acquire_complete
    simpa using hrun
  · intro d hd
    refine ⟨hmem d hd, ?_⟩
    intro hc
    dsimp only at hc
    obtain ⟨kv, hkv, hkv1⟩ := List.mem_map.mp hc
    have hpred := (List.mem_filter.mp hkv).2
    have hnotin : d.fw_id ∉
        (terminalDocs ad launches).map LaunchDoc.fw_id := by
      rw [← hkv1]
      exact of_decide_eq_true hpred
    exact hnotin (List.mem_map_of_mem LaunchDoc.fw_id hd)
  · intro d hd hstate key parser2 hooks hfind
    have hentry : mkAcquiredEntry ad.queue d =
        (key, docBlob d, parser2, hooks) := by
      unfold mkAcquiredEntry
      rw [hfind]
    have hblob : docBlob d = ResultBlob.err
        (dictSet (dictSet d.task_arg0 "error_message"
          (Val.s d.exception_stacktrace)) "success" (Val.b false)) := by
      unfold docBlob
      rw [hstate]
      rfl
    have hin : (key, docBlob d, parser2, hooks) ∈
        (terminalDocs ad launches).map (mkAcquiredEntry ad.queue) :=
      hentry ▸ List.mem_map_of_mem (mkAcquiredEntry ad.queue) hd
    rw [hblob] at hin
    exact hin

/-- Witness for C9 on the two-entry adapter and three backend launches
(one of them unknown to the queue). -/
theorem fw_acquire_terminal_resolution_witness :
    ((adTwo.queue.map Prod.fst).Nodup ∧
      (adTwo.queue.map fun kv => kv.2.1).Nodup ∧
      (launchesTwo.map LaunchDoc.fw_id).Nodup) ∧
    (∃ ad2 ret, adTwo.acquire_complete launchesTwo = Except.ok (ad2, ret) ∧
      ad2.queue = adTwo.queue.filter (fun kv =>
        decide (kv.1 ∉ (terminalDocs adTwo launchesTwo).map
          LaunchDoc.fw_id)) ∧
      (∀ d ∈ terminalDocs adTwo launchesTwo,
        d.fw_id ∈ adTwo.queue.map Prod.fst ∧
        d.fw_id ∉ ad2.queue.map Prod.fst) ∧
      ret = (terminalDocs adTwo launchesTwo).map
        (mkAcquiredEntry adTwo.queue) ∧
      (∀ d ∈ terminalDocs adTwo launchesTwo, d.state = "FIZZLED" →
        ∀ key parser2 hooks,
          assocFind adTwo.queue d.fw_id = some (key, parser2, hooks) →
          (key, ResultBlob.err (dictSet (dictSet d.task_arg0 "error_message"
              (Val.s d.exception_stacktrace)) "success" (Val.b false)),
            parser2, hooks) ∈ ret)) :=
  ⟨⟨by decide, by decide, by decide⟩,
    fw_acquire_terminal_resolution adTwo launchesTwo
      (by decide) (by decide) (by decide)⟩
